import Mathlib

/-!
# Verification of the uiua zip/broadcast engine (`src/algorithm/zip.rs`)

A shallow embedding of the zip engine: the data model (`Value`, arrays with an
explicit shape and a flat row-major data buffer), the fast-path recognizers
(`f_mon_fast_fn_impl`, `f_dy_fast_fn`), the array kernels (`repeat_shape`,
`replace_depth`, `fill_length_to`) and the slow-path drivers (`each1`, `each2`,
`rows1`, `rows2`, `rows_windows`).

Modelling conventions:
* `f64` elements are modelled as `ℚ`; every input exercised here is a small
  integer, on which the two agree.
* `Value` is modelled with the `Num`, `Byte` and `Box` variants.  The remaining
  element types are dispatched by exactly the same per-variant code in the
  source (spec section 3), so they are omitted rather than stubbed.
* Rust closures built by the recognizer are defunctionalized into the kernel
  syntax trees `MonKernel` / `DyKernel`; composition of closures becomes the
  `comp` / `flip` constructors.
* The interpreter context is narrowed to what the engine reads from it: the
  fill configuration (`FillCtx`) and the callback used to run the iterated
  function, modelled as `List Value → Except Unit (List Value)` taking the
  arguments in pop order (top of stack first) and returning the outputs in pop
  order.  Spans and the per-context recognition cache (zip.rs 115-127, pure
  memoization keyed by body hash) have no semantic content and are dropped.
-/

namespace Zip

/-- The primitives the zip engine inspects (spec section 4.D); `otherPrim`
stands for every primitive outside the fast-path tables. -/
inductive Primitive where
  | not | sign | neg | abs | sqrt | floor | ceil | round
  | deshape | transpose | reverse | classify | fix | box
  | dup
  | add | sub | mul | div | pow | mod | log
  | eq | ne | lt | gt | le | ge
  | complex | max | min | atan | rotate
  | rows | pop | flip
  | otherPrim
  deriving DecidableEq, Repr

/-- Compiler-internal primitives appearing in the fast-path tables. -/
inductive ImplPrimitive where
  | transposeN (n : Int)
  | replaceRand
  | sortUp
  | sortDown
  | unCouple
  | unJoin
  | otherImpl
  deriving DecidableEq, Repr

/-- The array type `Array<T>` (spec section 3): an explicit shape and a flat row-major data
buffer.  `meta` carries no shape or data content and is not modelled. -/
structure UArray (α : Type) where
  shape : List Nat
  data : List α
  deriving DecidableEq, Repr

/-- A value: a tagged union over element types, each variant holding the
shape and data of its array (spec section 3).  `num` models `Num` (`f64` as
`ℚ`), `byte` models `Byte`, `box` models `Box` (boxed sub-values). -/
inductive Value where
  | num (shape : List Nat) (data : List ℚ)
  | byte (shape : List Nat) (data : List Nat)
  | box (shape : List Nat) (data : List Value)
  deriving Repr

/-- The instruction forms the recognizer reads (spec section 3).  `pushFunc`
carries the pushed function's body directly, inlining the assembly lookup
`f.instrs(&env.asm)`; `other` is every instruction the recognizer does not
inspect. -/
inductive Instr where
  | prim (p : Primitive) (span : Nat)
  | implPrim (p : ImplPrimitive) (span : Nat)
  | pushFunc (body : List Instr)
  | push (v : Value)
  | other
  deriving Repr

namespace UArray

variable {α : Type}

/-- Rust `Array::rank`. -/
def rank (a : UArray α) : Nat := a.shape.length

/-- Rust `Array::row_count`: the leading dimension, `1` for a rank-0 array. -/
def row_count (a : UArray α) : Nat :=
  match a.shape with
  | [] => 1
  | d :: _ => d

/-- Rust `Array::row_len`: the element count of one row. -/
def row_len (a : UArray α) : Nat := a.shape.tail.prod

/-- Shape/data well-formedness: `product(shape) == len(data)` (spec section 3). -/
def wf (a : UArray α) : Prop := a.data.length = a.shape.prod

/-- Rust `Array::repeat_shape` (zip.rs 219-239): prepend `shape_pref` to the shape
and replicate the whole data buffer `product(shape_pref)` times (empty when the
product is zero, untouched when it is one). -/
def repeat_shape (a : UArray α) (shape_pref : List Nat) : UArray α :=
  let count := shape_pref.prod
  { shape := shape_pref ++ a.shape
    data :=
      match count with
      | 0 => []
      | 1 => a.data
      | _ => (List.replicate count a.data).flatten }

/-- Rust `Array::fill_length_to` (zip.rs 850-865).  The context's
`scalar_fill::<T>()` (an external interface, spec section 6) is passed in as
an optional fill scalar; `Err` corresponds to the recoverable
"no fill configured" error. -/
def fill_length_to (a : UArray α) (len : Nat) (fill : Option α) :
    Except Unit (UArray α) :=
  if a.rank = 0 ∨ len ≤ a.row_count then .ok a
  else
    match fill with
    | none => .error ()
    | some f =>
        .ok { shape := len :: a.shape.tail
              data := a.data ++ List.replicate ((len - a.row_count) * a.row_len) f }

end UArray

namespace Value

/-- Rust `Value::shape`. -/
def shape_of : Value → List Nat
  | .num s _ => s
  | .byte s _ => s
  | .box s _ => s

/-- Rust `Value::rank`. -/
def rank_of (v : Value) : Nat := v.shape_of.length

/-- Rust `Value::row_count`: the leading dimension, `1` for a rank-0 value
(spec section 3). -/
def row_count (v : Value) : Nat :=
  match v.shape_of with
  | [] => 1
  | d :: _ => d

/-- The length of the flat data buffer. -/
def data_len : Value → Nat
  | .num _ d => d.length
  | .byte _ d => d.length
  | .box _ d => d.length

/-- Rust `Value::validate_shape`'s invariant: `product(shape) == len(data)`. -/
def wf (v : Value) : Bool := v.data_len == v.shape_of.prod

/-- Replace the shape, keeping the data (`*eached.shape_mut() = new_shape`). -/
def set_shape (s : List Nat) : Value → Value
  | .num _ d => .num s d
  | .byte _ d => .byte s d
  | .box _ d => .box s d

/-- Modelled from the spec: `Value::default()` is not under `src/`
(`value.rs` line 17 builds it from `Array::<u8>::default()`, whose layout is
not in the repository slice); modelled as an empty byte list. -/
def default_value : Value := .byte [0] []

/-- Modelled from the spec: `Value::undo_fix` is not under `src/`; spec
section 4.A: `undo_fix` removes a prepended unit axis. -/
def undo_fix (v : Value) : Value :=
  match v.shape_of with
  | 1 :: rest => v.set_shape rest
  | _ => v

/-- Modelled from the spec: `Value::pop_row` is not under `src/`; it drops the
first row: the leading dimension shrinks by one and one row's worth of data is
removed (spec section 4.A `pop_row`, section 4.F empty handling). -/
def pop_row (v : Value) : Value :=
  match v with
  | .num (d :: rest) dt => .num ((d - 1) :: rest) (dt.drop rest.prod)
  | .byte (d :: rest) dt => .byte ((d - 1) :: rest) (dt.drop rest.prod)
  | .box (d :: rest) dt => .box ((d - 1) :: rest) (dt.drop rest.prod)
  | v => v

/-- Modelled from the spec: `Value::proxy_scalar` is not under `src/`; spec
section 4.A: a rank-0 value of the operand's element type with fill-scalar
content (the content is only ever passed to the opaque callback, so the
type's default element stands in for the fill). -/
def proxy_scalar : Value → Value
  | .num _ _ => .num [] [0]
  | .byte _ _ => .byte [] [0]
  | .box _ _ => .box [] [default_value]

/-- Modelled from the spec: `Value::proxy_row` is not under `src/`; spec
section 4.A: a value of shape `v.shape[1..]` with fill data. -/
def proxy_row : Value → Value
  | .num s _ => .num s.tail (List.replicate s.tail.prod 0)
  | .byte s _ => .byte s.tail (List.replicate s.tail.prod 0)
  | .box s _ => .box s.tail (List.replicate s.tail.prod default_value)

/-- The scalar elements of `v` in row-major order (`Value::into_elements`). -/
def into_elements : Value → List Value
  | .num _ d => d.map (fun x => .num [] [x])
  | .byte _ d => d.map (fun x => .byte [] [x])
  | .box _ d => d.map (fun x => .box [] [x])

/-- The `i`-th length-`rl` chunk of a flat buffer, for each `i < k`: the rows
of an array with `k` rows of `rl` elements each. -/
def rows_data {α : Type} (k rl : Nat) (d : List α) : List (List α) :=
  (List.range k).map (fun i => (d.drop (i * rl)).take rl)

/-- Modelled from the spec: `Value::into_rows` is not under `src/`; spec
section 4.B: a sequence of sub-values of shape `shape[1..]` in natural order;
spec section 4.F: a rank-0 input is treated as a single row. -/
def into_rows : Value → List Value
  | .num [] d => [.num [] d]
  | .num (k :: rest) d => (rows_data k rest.prod d).map (fun c => .num rest c)
  | .byte [] d => [.byte [] d]
  | .byte (k :: rest) d => (rows_data k rest.prod d).map (fun c => .byte rest c)
  | .box [] d => [.box [] d]
  | .box (k :: rest) d => (rows_data k rest.prod d).map (fun c => .box rest c)

/-- Modelled from the spec: `Value::slice_rows` is not under `src/`; rows
`i..j` along axis 0 (used by the `rows_windows` box bypass, zip.rs 810). -/
def slice_rows (v : Value) (i j : Nat) : Value :=
  match v with
  | .num (_ :: rest) d =>
      .num ((j - i) :: rest) ((d.drop (i * rest.prod)).take ((j - i) * rest.prod))
  | .byte (_ :: rest) d =>
      .byte ((j - i) :: rest) ((d.drop (i * rest.prod)).take ((j - i) * rest.prod))
  | .box (_ :: rest) d =>
      .box ((j - i) :: rest) ((d.drop (i * rest.prod)).take ((j - i) * rest.prod))
  | v => v

/-- Modelled from the spec: `Value::first_dim_zero` is not under `src/`; the
input with its first dimension set to zero (zip.rs 804). -/
def first_dim_zero (v : Value) : Value :=
  match v with
  | .num (_ :: rest) _ => .num (0 :: rest) []
  | .byte (_ :: rest) _ => .byte (0 :: rest) []
  | .box (_ :: rest) _ => .box (0 :: rest) []
  | v => v

/-- Modelled from the spec: `Value::windows` for a scalar size `n` is not
under `src/`; spec section 4.F: the overlapping windows of size `n` along
axis 0, `row_count − n + 1` of them. -/
def windows_val (n : Nat) (v : Value) : Value :=
  match v with
  | .num (d :: rest) dt =>
      .num ((d - n + 1) :: n :: rest)
        (((List.range (d - n + 1)).map
          (fun i => (dt.drop (i * rest.prod)).take (n * rest.prod))).flatten)
  | .byte (d :: rest) dt =>
      .byte ((d - n + 1) :: n :: rest)
        (((List.range (d - n + 1)).map
          (fun i => (dt.drop (i * rest.prod)).take (n * rest.prod))).flatten)
  | .box (d :: rest) dt =>
      .box ((d - n + 1) :: n :: rest)
        (((List.range (d - n + 1)).map
          (fun i => (dt.drop (i * rest.prod)).take (n * rest.prod))).flatten)
  | v => v

/-- Rust `Value::as_int` (the `rows_windows` window size, zip.rs 797): an integer
scalar, rejecting non-scalars and non-integers. -/
def as_int : Value → Option Int
  | .num [] [q] => if q.den = 1 then some q.num else none
  | .byte [] [b] => some (b : Int)
  | _ => none

/-- The fill configuration the interpreter context exposes (external
interface `scalar_fill`, spec section 6): an optional scalar fill per element
type. -/
structure FillCtx where
  num_fill : Option ℚ
  byte_fill : Option Nat
  box_fill : Option Value

/-- The empty fill configuration (no fill set for any type). -/
def noFill : FillCtx := ⟨none, none, none⟩

/-- Rust `Value::length_is_fillable` (zip.rs 821-835): rank-0 values are never
fillable; otherwise a fill must exist for the element type. -/
def length_is_fillable (ctx : FillCtx) (v : Value) : Bool :=
  if v.rank_of = 0 then false
  else
    match v with
    | .num _ _ => ctx.num_fill.isSome
    | .byte _ _ => ctx.byte_fill.isSome
    | .box _ _ => ctx.box_fill.isSome

/-- Rust `Value::fill_length_to` (zip.rs 836-848): per-variant dispatch to
`Array::fill_length_to`. -/
def fill_length_to (ctx : FillCtx) (len : Nat) : Value → Except Unit Value
  | .num s d => (UArray.fill_length_to ⟨s, d⟩ len ctx.num_fill).map
      (fun a => .num a.shape a.data)
  | .byte s d => (UArray.fill_length_to ⟨s, d⟩ len ctx.byte_fill).map
      (fun a => .byte a.shape a.data)
  | .box s d => (UArray.fill_length_to ⟨s, d⟩ len ctx.box_fill).map
      (fun a => .box a.shape a.data)

/-- Modelled from the spec: `Value::from_row_values` in `src/value.rs` is from
an older layer of the repository and delegates to a `join` that is not under
`src/`; spec sections 4.F and 2 describe the reassembly: the per-row results
become the rows of an array with a new leading axis.  Rows of mismatched
shape or element type fail (the fill-less join error). -/
def from_row_values : List Value → Except Unit Value
  | [] => .ok default_value
  | .num s d :: vs =>
      match vs.mapM (fun v => match v with
        | .num s2 d2 => if s2 = s then some d2 else none
        | _ => none) with
      | some ds => .ok (.num ((1 + vs.length) :: s) (d ++ ds.flatten))
      | none => .error ()
  | .byte s d :: vs =>
      match vs.mapM (fun v => match v with
        | .byte s2 d2 => if s2 = s then some d2 else none
        | _ => none) with
      | some ds => .ok (.byte ((1 + vs.length) :: s) (d ++ ds.flatten))
      | none => .error ()
  | .box s d :: vs =>
      match vs.mapM (fun v => match v with
        | .box s2 d2 => if s2 = s then some d2 else none
        | _ => none) with
      | some ds => .ok (.box ((1 + vs.length) :: s) (d ++ ds.flatten))
      | none => .error ()

/-- Rust `Value::validate_shape`: the shape invariant, surfaced as an error when
violated (the source panics there). -/
def validate_shape (v : Value) : Except Unit Value :=
  if v.wf then .ok v else .error ()

/-- Rust `Value::replace_depth` (zip.rs 204-217): clamp the depth to the rank,
take that shape prefix of the input, and `repeat_shape` the replacement's
array with it (`generic_mut_shallow` dispatches per variant). -/
def replace_depth (v repl : Value) (depth : Nat) : Value :=
  let dep := min v.rank_of depth
  let pref := v.shape_of.take dep
  match repl with
  | .num s d => let a := UArray.repeat_shape ⟨s, d⟩ pref; .num a.shape a.data
  | .byte s d => let a := UArray.repeat_shape ⟨s, d⟩ pref; .byte a.shape a.data
  | .box s d => let a := UArray.repeat_shape ⟨s, d⟩ pref; .box a.shape a.data

/-- The `fix` operation: prepend a unit axis (spec section 4.A); also the shape of a
single-row reassembly by `from_row_values`. -/
def fix_val (v : Value) : Value :=
  match v with
  | .num s d => .num (1 :: s) d
  | .byte s d => .byte (1 :: s) d
  | .box s d => .box (1 :: s) d

end Value

/-! ## Fast-path recognizers

The Rust recognizers build closures (`ValueMonFn`, `ValueDyFn`); here those
closures are defunctionalized into kernel syntax trees.  `MonKernel.comp g f`
is the closure built at zip.rs 166-172 (run `g`, then `f`);
`MonKernel.replace v` is the `Pop;Push` kernel of zip.rs 144-150;
`DyKernel.flip k` is the argument/depth-swapping closure of zip.rs 299-303. -/

/-- A defunctionalized monadic fast-path kernel. -/
inductive MonKernel where
  | prim (p : Primitive) (span : Nat)
  | implPrim (p : ImplPrimitive) (span : Nat)
  | replace (v : Value)
  | comp (g f : MonKernel)

/-- A defunctionalized dyadic fast-path kernel. -/
inductive DyKernel where
  | prim (p : Primitive) (span : Nat)
  | flip (k : DyKernel)
  deriving DecidableEq

/-- Rust `prim_mon_fast_fn` (zip.rs 37-68): the monadic fast-path table. -/
def prim_mon_fast_fn (p : Primitive) (span : Nat) : Option MonKernel :=
  match p with
  | .not | .sign | .neg | .abs | .sqrt | .floor | .ceil | .round
  | .deshape | .transpose | .reverse | .classify | .fix | .box =>
      some (.prim p span)
  | _ => none

/-- Rust `impl_prim_mon_fast_fn` (zip.rs 70-96): the monadic table for
compiler-internal primitives. -/
def impl_prim_mon_fast_fn (p : ImplPrimitive) (span : Nat) : Option MonKernel :=
  match p with
  | .transposeN _ | .replaceRand | .sortUp | .sortDown => some (.implPrim p span)
  | _ => none

/-- Rust `prim_dy_fast_fn` (zip.rs 248-274): the dyadic fast-path table. -/
def prim_dy_fast_fn (p : Primitive) (span : Nat) : Option DyKernel :=
  match p with
  | .add | .sub | .mul | .div | .pow | .mod | .log
  | .eq | .ne | .lt | .gt | .le | .ge
  | .complex | .max | .min | .atan | .rotate => some (.prim p span)
  | _ => none

mutual

/-- Rust `f_mon_fast_fn_impl` (zip.rs 129-183).  The thread-local cache wrapper
`f_mon_fast_fn` (zip.rs 115-127) only memoizes this function keyed by the
body hash, so recursion through `PushFunc` goes directly to the body here.
The `instrs if !deep` arm is the chaining loop, transcribed as
`chain_windows`. -/
def f_mon_fast_fn_impl : List Instr → Bool → Option (MonKernel × Nat)
  | [.prim p span], _ => (prim_mon_fast_fn p span).map (fun f => (f, 0))
  | [.implPrim p span], _ => (impl_prim_mon_fast_fn p span).map (fun f => (f, 0))
  | [.pushFunc g, .prim .rows _], _ =>
      (f_mon_fast_fn_impl g false).map (fun fd => (fd.1, fd.2 + 1))
  | [.prim .pop _, .push repl], _ => some (.replace repl, 0)
  | instrs, false => chain_windows instrs none 0
  | _, _ => none
  termination_by instrs deep => 3 * sizeOf instrs + (if deep then 0 else 2)

/-- The chaining loop of `f_mon_fast_fn_impl` (zip.rs 151-180): scan the
remaining instructions in windows of length 1 then 2, recognizing each window
with `deep = true`; `func` and `depth` are the loop's accumulators (`func`
starts as `None` at zip.rs 154 and is only ever `Option::map`ped at
zip.rs 166).  When neither window fits past the end the loop breaks and
returns `func?`; when both windows fail to recognize it returns `None`. -/
def chain_windows : List Instr → Option MonKernel → Nat → Option (MonKernel × Nat)
  | [], func, depth => func.map (fun f => (f, depth))
  | [i], func, depth =>
      match f_mon_fast_fn_impl [i] true with
      | some fd => chain_windows [] (func.map (fun g => .comp g fd.1)) (depth + fd.2)
      | none => func.map (fun f => (f, depth))
  | i :: j :: rest, func, depth =>
      match f_mon_fast_fn_impl [i] true with
      | some fd =>
          chain_windows (j :: rest) (func.map (fun g => .comp g fd.1)) (depth + fd.2)
      | none =>
          match f_mon_fast_fn_impl [i, j] true with
          | some fd => chain_windows rest (func.map (fun g => .comp g fd.1)) (depth + fd.2)
          | none => none
  termination_by rest _ _ => 3 * sizeOf rest + 1
  decreasing_by
    all_goals simp_wf
    all_goals first
      | omega
      | (have h : 1 ≤ sizeOf rest := by
           cases rest with
           | nil => simp
           | cons a t => simp; omega
         omega)

end

/-- Rust `nest_dy_fast` (zip.rs 280-289): depths may only nest when the signum of
both differences agrees. -/
def nest_dy_fast (f : DyKernel) (ad1 bd1 ad2 bd2 : Nat) :
    Option (DyKernel × Nat × Nat) :=
  if ((ad1 : Int) - ad2).sign ≠ ((bd1 : Int) - bd2).sign then none
  else some (f, ad1 + ad2, bd1 + bd2)

/-- Rust `f_dy_fast_fn` (zip.rs 276-307). -/
def f_dy_fast_fn : List Instr → Option (DyKernel × Nat × Nat)
  | [.prim p span] => (prim_dy_fast_fn p span).map (fun f => (f, 0, 0))
  | [.pushFunc g, .prim .rows _] =>
      (f_dy_fast_fn g).bind (fun fab => nest_dy_fast fab.1 fab.2.1 fab.2.2 1 1)
  | .prim .flip _ :: rest =>
      (f_dy_fast_fn rest).map (fun fab => (.flip fab.1, fab.2.1, fab.2.2))
  | _ => none
  termination_by instrs => sizeOf instrs

/-! ## Slow-path drivers

The iterated function is modelled by what the engine observes of it: an
output count (its signature's `outputs`) and a callback
`List Value → Except Unit (List Value)` standing for pushing the arguments
and running `env.call(f)`; arguments and outputs are listed in pop order
(top of stack first).  `env.without_fill` scopes only affect the callback and
the fill context, both of which are explicit here. -/

/-- Modelled from the spec: `call_maintain_sig` is an external interface
(spec section 6); during shape discovery "an `Err` is swallowed and a default
value substituted" (spec section 4.F).  The callback's outputs stand when it
succeeds with its declared signature; otherwise one default per declared
output maintains the stack shape. -/
def call_maintain_sig (outputs : Nat)
    (call : List Value → Except Unit (List Value)) (args : List Value) :
    List Value :=
  match call args with
  | .ok rs => if rs.length = outputs then rs else List.replicate outputs Value.default_value
  | .error _ => List.replicate outputs Value.default_value

/-- Popping `outputs` results off the stack a call returned
(`env.pop("... function result")`): underflow is an error. -/
def pop_results (outputs : Nat) (rs : List Value) : Except Unit (List Value) :=
  if outputs ≤ rs.length then .ok (rs.take outputs) else .error ()

/-- One round of `new_rows[i].push(env.pop(..))` over all output buffers. -/
def push_outputs (acc : List (List Value)) (outs : List Value) :
    List (List Value) :=
  (acc.zip outs).map (fun p => p.1 ++ [p.2])

/-- The per-output collection buffers (`multi_output`) after all calls. -/
def transpose_outputs (outputs : Nat) (results : List (List Value)) :
    List (List Value) :=
  results.foldl push_outputs (List.replicate outputs [])

/-- The finishing loop shared by `rows1`/`rows2` (zip.rs 585-594, 628-637,
665-674, 730-739): per output in reverse order, reassemble the collected rows,
then `undo_fix` when the inputs were scalar, else `pop_row` when a synthetic
proxy row must be dropped. -/
def finish_rows (is_scalar is_empty : Bool) (cols : List (List Value)) :
    Except Unit (List Value) :=
  cols.reverse.mapM (fun col => (Value.from_row_values col).map (fun val =>
    if is_scalar then val.undo_fix else if is_empty then val.pop_row else val))

/-- The slow path of `rows1` (zip.rs 559-597), reached when neither monadic
fast-path recognizer matches the body; `inv = false` (`unboxed_if`/`boxed_if`
are identities) and per-value metadata is not modelled. -/
def rows1_slow (outputs : Nat) (call : List Value → Except Unit (List Value))
    (xs : Value) : Except Unit (List Value) :=
  let is_scalar := xs.rank_of == 0
  let is_empty := outputs != 0 && xs.row_count == 0
  if is_empty then
    finish_rows is_scalar true
      ((call_maintain_sig outputs call [xs.proxy_row]).map (fun r => [r]))
  else
    (xs.into_rows.mapM (fun row => (call [row]).bind (pop_results outputs))).bind
      (fun results => finish_rows is_scalar false (transpose_outputs outputs results))

/-- The slow path of `each1` (zip.rs 337-372), reached when the monadic
fast-path recognizer misses: iterate scalar elements, reassemble each output,
drop the synthetic proxy row on empty inputs, then graft the outer shape back
on and validate. -/
def each1_slow (outputs : Nat) (call : List Value → Except Unit (List Value))
    (xs : Value) : Except Unit (List Value) :=
  let new_shape := xs.shape_of
  let is_empty := outputs != 0 && xs.row_count == 0
  (if is_empty then
      .ok ((call_maintain_sig outputs call [xs.proxy_scalar]).map (fun r => [r]))
    else
      (xs.into_elements.mapM (fun v => (call [v]).bind (pop_results outputs))).map
        (transpose_outputs outputs)).bind
    (fun new_values => new_values.reverse.mapM (fun vals =>
      (Value.from_row_values vals).bind (fun eached =>
        let eached := if is_empty then eached.pop_row else eached
        Value.validate_shape (eached.set_shape (new_shape ++ eached.shape_of.tail)))))

/-- The per-cell closure of `each2`'s empty path (zip.rs 402-412): push `y`
then `x` (the call sees `x` on top), run `call_maintain_sig`; on success pop
the declared outputs, on error substitute one default value per output. -/
def each2_empty_cell (outputs : Nat)
    (call : List Value → Except Unit (List Value)) (x y : Value) :
    Except Unit (List Value) :=
  match call [x, y] with
  | .ok rs => pop_results outputs rs
  | .error _ => .ok (List.replicate outputs Value.default_value)

/-- The slow path of `rows2` (zip.rs 599-743): the three arms of the
`(row_count, row_count)` match, with the fill-based length reconciliation of
zip.rs 677-688.  The dyadic fast-path check at zip.rs 689-694 fires only when
`f_dy_fast_fn` recognizes the body; this definition covers the complementary
slow path (`inv = false`, metadata not modelled). -/
def rows2_slow (ctx : Value.FillCtx) (outputs : Nat)
    (call : List Value → Except Unit (List Value)) (xs ys : Value) :
    Except Unit (List Value) :=
  let both_scalar := xs.rank_of == 0 && ys.rank_of == 0
  if ys.row_count == 1 && !(Value.length_is_fillable ctx ys) then
    let ys := ys.undo_fix
    let is_empty := outputs != 0 && xs.row_count == 0
    if is_empty then
      finish_rows both_scalar true
        ((call_maintain_sig outputs call [xs.proxy_row, ys]).map (fun r => [r]))
    else
      (xs.into_rows.mapM (fun x => (call [x, ys]).bind (pop_results outputs))).bind
        (fun results => finish_rows both_scalar false (transpose_outputs outputs results))
  else if xs.row_count == 1 && !(Value.length_is_fillable ctx xs) then
    let xs := xs.undo_fix
    let is_empty := outputs != 0 && ys.row_count == 0
    if is_empty then
      finish_rows both_scalar true
        ((call_maintain_sig outputs call [xs, ys.proxy_row]).map (fun r => [r]))
    else
      (ys.into_rows.mapM (fun y => (call [xs, y]).bind (pop_results outputs))).bind
        (fun results => finish_rows both_scalar false (transpose_outputs outputs results))
  else
    (if xs.row_count != ys.row_count then
        (Value.fill_length_to ctx ys.row_count xs).bind (fun xs2 =>
          (Value.fill_length_to ctx xs2.row_count ys).map (fun ys2 => (xs2, ys2)))
      else .ok (xs, ys)).bind (fun xy =>
      let xs := xy.1
      let ys := xy.2
      let is_empty := outputs != 0 && (xs.row_count == 0 || ys.row_count == 0)
      if is_empty then
        finish_rows both_scalar true
          ((call_maintain_sig outputs call
            [if xs.row_count == 0 then xs.proxy_row else xs,
             if ys.row_count == 0 then ys.proxy_row else ys]).map (fun r => [r]))
      else
        ((xs.into_rows.zip ys.into_rows).mapM
            (fun p => (call [p.1, p.2]).bind (pop_results outputs))).bind
          (fun results =>
            finish_rows both_scalar false (transpose_outputs outputs results)))

/-- Follows the spec's words for claim C2 (spec section 4.F, arity 2): when
the right side has a single row, `undo_fix` it and conceptually replicate it
against every row of the other operand, without materializing per-row
copies: a reference definition to compare `rows2_slow`'s `(_, 1)` arm
against. -/
def rows2_spec_replicate (outputs : Nat)
    (call : List Value → Except Unit (List Value)) (xs ys : Value) :
    Except Unit (List Value) :=
  let y := ys.undo_fix
  (xs.into_rows.mapM (fun x => (call [x, y]).bind (pop_results outputs))).bind
    (fun results =>
      finish_rows (xs.rank_of == 0 && ys.rank_of == 0) false
        (transpose_outputs outputs results))

/-- Follows the spec's words for claim C2, mirrored: when the left side has a
single row, `undo_fix` it and replicate it against every row of the right
operand: the reference for `rows2_slow`'s `(1, _)` arm. -/
def rows2_spec_replicate_left (outputs : Nat)
    (call : List Value → Except Unit (List Value)) (xs ys : Value) :
    Except Unit (List Value) :=
  let x := xs.undo_fix
  (ys.into_rows.mapM (fun y => (call [x, y]).bind (pop_results outputs))).bind
    (fun results =>
      finish_rows (xs.rank_of == 0 && ys.rank_of == 0) false
        (transpose_outputs outputs results))

/-! ## `rows_windows` -/

/-- What the dispatcher reads off the iterated function handle in
`rows_windows`: its argument count, whether the body is exactly a primitive
(`Function::as_primitive`), and the callback used by the deferred `rows`
call. -/
structure UFn where
  args : Nat
  outputs : Nat
  as_prim : Option Primitive
  call : List Value → Except Unit (List Value)

/-- The observable outcome of `rows_windows`: an error, a value pushed
directly, or a tail call into `rows1` on a constructed value
(`via_rows w` stands for `rows1(f, w, false, env)` at zip.rs 795/817, and
`via_rows_list` for the non-scalar window-size path at zip.rs 793-796). -/
inductive RowsWindowsResult where
  | err
  | pushed (v : Value)
  | via_rows (w : Value)
  | via_rows_list (nArr xs : Value)
  deriving Repr

/-- Rust `rows_windows` (zip.rs 784-818). -/
def rows_windows (f : UFn) (nArr xs : Value) : RowsWindowsResult :=
  if f.args != 1 then .err
  else if nArr.rank_of != 0 then .via_rows_list nArr xs
  else
    match nArr.as_int with
    | none => .err
    | some n =>
      let nAbs := n.natAbs
      if nAbs == 0 then .err
      else if xs.row_count < nAbs then .pushed xs.first_dim_zero
      else
        match f.as_prim with
        | some .box =>
            .pushed (.box [xs.row_count - (nAbs - 1)]
              ((List.range (xs.row_count - (nAbs - 1))).map
                (fun ws => xs.slice_rows ws (ws + nAbs))))
        | _ => .via_rows (Value.windows_val nAbs xs)

/-- Modelled from the spec: the behavior of the `Add` primitive on scalar
numbers (spec section 8, scenario C); the pervasive `Add` kernel lives outside
`src/`.  Arguments in pop order; one output. -/
def add_call : List Value → Except Unit (List Value)
  | [.num [] [a], .num [] [b]] => .ok [.num [] [a + b]]
  | _ => .error ()

/-! ## Helper lemmas -/

@[simp] theorem except_bind_ok {ε α β : Type} (a : α) (f : α → Except ε β) :
    (Except.ok a).bind f = f a := rfl

@[simp] theorem except_bind_error {ε α β : Type} (e : ε) (f : α → Except ε β) :
    (Except.error e).bind f = (Except.error e : Except ε β) := rfl

@[simp] theorem except_map_ok {ε α β : Type} (a : α) (f : α → β) :
    (Except.ok a : Except ε α).map f = .ok (f a) := rfl

@[simp] theorem except_map_error {ε α β : Type} (e : ε) (f : α → β) :
    (Except.error e : Except ε α).map f = .error e := rfl

@[simp] theorem except_bindM_ok {ε α β : Type} (a : α) (f : α → Except ε β) :
    ((Except.ok a : Except ε α) >>= f) = f a := rfl

@[simp] theorem except_bindM_error {ε α β : Type} (e : ε) (f : α → Except ε β) :
    ((Except.error e : Except ε α) >>= f) = (Except.error e : Except ε β) := rfl

@[simp] theorem except_mapM_ok {ε α β : Type} (a : α) (f : α → β) :
    (f <$> (Except.ok a : Except ε α)) = (Except.ok (f a) : Except ε β) := rfl

@[simp] theorem except_mapM_error {ε α β : Type} (e : ε) (f : α → β) :
    (f <$> (Except.error e : Except ε α)) = (Except.error e : Except ε β) := rfl

@[simp] theorem except_pure_def {ε α : Type} (a : α) :
    (pure a : Except ε α) = .ok a := rfl

@[simp] theorem option_pure_def {α : Type} (a : α) :
    (pure a : Option α) = some a := rfl

@[simp] theorem mapM_loop_nil {m : Type → Type} [Monad m] {α β : Type}
    (f : α → m β) (acc : List β) :
    List.mapM.loop f [] acc = pure acc.reverse := rfl

theorem mapM_loop_eq {m : Type → Type} [Monad m] {α β : Type}
    (f : α → m β) (l : List α) :
    List.mapM.loop f l [] = l.mapM f := rfl

theorem UArray.repeat_shape_shape {α : Type} (a : UArray α) (p : List Nat) :
    (a.repeat_shape p).shape = p ++ a.shape := rfl

theorem UArray.repeat_shape_data {α : Type} (a : UArray α) (p : List Nat) :
    (a.repeat_shape p).data = (List.replicate p.prod a.data).flatten := by
  unfold repeat_shape
  rcases h : p.prod with _ | n
  · simp
  · rcases n with _ | m
    · simp
    · rfl

theorem UArray.repeat_shape_wf {α : Type} (a : UArray α) (p : List Nat) (h : a.wf) :
    (a.repeat_shape p).wf := by
  unfold wf at h ⊢
  rw [repeat_shape_shape, repeat_shape_data]
  simp [List.prod_append, h, Nat.mul_comm]

/-- After a successful fill extension the row count is the requested length,
so a second application short-circuits. -/
theorem UArray.fill_length_to_idem {α : Type} (a : UArray α) (len : Nat) (fill : Option α) :
    (a.fill_length_to len fill).bind (fun b => b.fill_length_to len fill) =
      a.fill_length_to len fill := by
  unfold fill_length_to
  by_cases h : a.rank = 0 ∨ len ≤ a.row_count
  · simp [h]
  · rcases fill with _ | f
    · simp [h]
    · rw [if_neg h, except_bind_ok, if_pos]
      right
      simp [row_count]


theorem chain_windows_none_of_le :
    ∀ (k : Nat) (rest : List Instr), rest.length ≤ k →
      ∀ (d : Nat), chain_windows rest none d = none := by
  intro k
  induction k with
  | zero =>
    intro rest h d
    have : rest = [] := List.length_eq_zero.mp (Nat.le_zero.mp h)
    subst this
    simp [chain_windows]
  | succ k ih =>
    intro rest h d
    match rest with
    | [] => simp [chain_windows]
    | [i] =>
      rw [chain_windows]
      cases hf : f_mon_fast_fn_impl [i] true with
      | none => simp
      | some fd => simp [chain_windows]
    | i :: j :: rest2 =>
      rw [chain_windows]
      cases hf : f_mon_fast_fn_impl [i] true with
      | none =>
        cases hf2 : f_mon_fast_fn_impl [i, j] true with
        | none => simp
        | some fd =>
          simp only [Option.map_none']
          exact ih rest2 (by simp only [List.length_cons] at h; omega) _
      | some fd =>
        simp only [Option.map_none']
        exact ih (j :: rest2) (by simp only [List.length_cons] at h ⊢; omega) _

/-- The chaining accumulator can never leave `none`. -/
theorem chain_windows_none (rest : List Instr) (d : Nat) :
    chain_windows rest none d = none :=
  chain_windows_none_of_le rest.length rest (Nat.le_refl _) d

theorem from_row_values_single (r : Value) :
    Value.from_row_values [r] = .ok r.fix_val := by
  cases r <;>
    simp only [Value.from_row_values, List.mapM_nil, option_pure_def,
      List.flatten_nil, List.append_nil, List.length_nil, Nat.add_zero,
      Value.fix_val]

theorem fix_val_shape (r : Value) :
    r.fix_val.shape_of = 1 :: r.shape_of := by
  cases r <;> rfl

theorem pop_row_fix_val_shape (r : Value) :
    r.fix_val.pop_row.shape_of = 0 :: r.shape_of := by
  cases r <;> rfl

theorem pop_row_fix_val_row_count (r : Value) :
    r.fix_val.pop_row.row_count = 0 := by
  cases r <;> rfl

theorem pop_row_fix_val_data_len (r : Value) (h : r.wf = true) :
    r.fix_val.pop_row.data_len = 0 := by
  cases r <;>
    (simp [Value.wf, Value.data_len, Value.shape_of] at h
     simp [Value.fix_val, Value.pop_row, Value.data_len, h])

theorem mapM_singleton_cols (h : Value → Value) (l : List Value) :
    l.mapM (fun r => (Value.from_row_values [r]).map h) =
      .ok (l.map (fun r => h r.fix_val)) := by
  induction l with
  | nil => rfl
  | cons a t ih =>
    rw [List.mapM_cons, from_row_values_single]
    simp only [except_mapM_ok, except_bindM_ok, except_pure_def, except_map_ok,
      ih, List.map_cons]

theorem finish_rows_singletons (s e : Bool) (rs : List Value) :
    finish_rows s e (rs.map (fun r => [r])) =
      .ok ((rs.map (fun r =>
        if s then r.fix_val.undo_fix else if e then r.fix_val.pop_row
        else r.fix_val)).reverse) := by
  unfold finish_rows
  rw [← List.map_reverse]
  rw [show ∀ l : List Value,
      (l.map (fun r => [r])).mapM (fun col => (Value.from_row_values col).map
        (fun val => if s then val.undo_fix else if e then val.pop_row else val)) =
      l.mapM (fun r => (Value.from_row_values [r]).map
        (fun val => if s then val.undo_fix else if e then val.pop_row else val))
    from ?_]
  · rw [mapM_singleton_cols]
    rw [List.map_reverse]
  · intro l
    induction l with
    | nil => rfl
    | cons a t ih => rw [List.map_cons, List.mapM_cons, List.mapM_cons, ih]

theorem call_maintain_sig_of_ok (outputs : Nat)
    (call : List Value → Except Unit (List Value)) (args : List Value)
    (rs : List Value) (h : call args = .ok rs) (hl : rs.length = outputs) :
    call_maintain_sig outputs call args = rs := by
  simp [call_maintain_sig, h, hl]

theorem call_maintain_sig_of_error (outputs : Nat)
    (call : List Value → Except Unit (List Value)) (args : List Value)
    (e : Unit) (h : call args = .error e) :
    call_maintain_sig outputs call args =
      List.replicate outputs Value.default_value := by
  simp [call_maintain_sig, h]

theorem mapM_congr_ok {α β : Type} (f : α → Except Unit β) (g : α → β)
    (l : List α) (h : ∀ a ∈ l, f a = .ok (g a)) :
    l.mapM f = .ok (l.map g) := by
  induction l with
  | nil => rfl
  | cons a t ih =>
    rw [List.mapM_cons, h a (by simp), ih (fun x hx => h x (by simp [hx]))]
    simp

theorem mapM_map_singleton (F : List Value → Except Unit Value) (l : List Value) :
    (l.map (fun r => [r])).mapM F = l.mapM (fun r => F [r]) := by
  induction l with
  | nil => rfl
  | cons a t ih => rw [List.map_cons, List.mapM_cons, List.mapM_cons, ih]

theorem rank_eq_zero_false_of_row_count_zero (v : Value) (h : v.row_count = 0) :
    (v.rank_of == 0) = false := by
  unfold Value.row_count at h
  unfold Value.rank_of
  cases hs : v.shape_of with
  | nil => rw [hs] at h; simp at h
  | cons a t => simp [hs]

theorem shape_zero_head_of_row_count_zero (v : Value) (h : v.row_count = 0) :
    v.shape_of = 0 :: v.shape_of.tail := by
  unfold Value.row_count at h
  cases hs : v.shape_of with
  | nil => rw [hs] at h; simp at h
  | cons a t =>
    rw [hs] at h
    simp only at h
    simp [hs, h]

theorem shape_of_set_shape (s : List Nat) (v : Value) :
    (v.set_shape s).shape_of = s := by
  cases v <;> rfl

theorem data_len_set_shape (s : List Nat) (v : Value) :
    (v.set_shape s).data_len = v.data_len := by
  cases v <;> rfl

theorem wf_set_shape (s : List Nat) (v : Value) :
    (v.set_shape s).wf = (v.data_len == s.prod) := by
  cases v <;> rfl

theorem validate_shape_ok (v : Value) (h : v.wf = true) :
    Value.validate_shape v = .ok v := by
  unfold Value.validate_shape
  rw [if_pos h]

theorem rows1_slow_empty (outputs : Nat)
    (call : List Value → Except Unit (List Value)) (xs : Value)
    (ho : outputs ≠ 0) (he : xs.row_count = 0) :
    rows1_slow outputs call xs =
      .ok (((call_maintain_sig outputs call [xs.proxy_row]).map
        (fun r => r.fix_val.pop_row)).reverse) := by
  unfold rows1_slow
  rw [rank_eq_zero_false_of_row_count_zero xs he]
  have hcond : (outputs != 0 && xs.row_count == 0) = true := by simp [ho, he]
  rw [hcond]
  simp only [if_true]
  rw [finish_rows_singletons]
  simp

theorem rows2_slow_empty (ctx : Value.FillCtx) (outputs : Nat)
    (call : List Value → Except Unit (List Value)) (xs ys : Value)
    (ho : outputs ≠ 0) (hx : xs.row_count = 0) (hy : ys.row_count = 0) :
    rows2_slow ctx outputs call xs ys =
      .ok (((call_maintain_sig outputs call [xs.proxy_row, ys.proxy_row]).map
        (fun r => r.fix_val.pop_row)).reverse) := by
  unfold rows2_slow
  rw [rank_eq_zero_false_of_row_count_zero xs hx]
  have h1 : (ys.row_count == 1) = false := by simp [hy]
  have h2 : (xs.row_count == 1) = false := by simp [hx]
  have h3 : (xs.row_count != ys.row_count) = false := by simp [hx, hy]
  have h4 : (outputs != 0 && (xs.row_count == 0 || ys.row_count == 0)) = true := by
    simp [ho, hx]
  have h5 : (xs.row_count == 0) = true := by simp [hx]
  have h6 : (ys.row_count == 0) = true := by simp [hy]
  rw [h1, h2, h3]
  simp only [Bool.false_and, Bool.false_eq_true, if_false, except_bind_ok]
  rw [h4, h5, h6]
  simp only [if_true]
  rw [finish_rows_singletons]
  simp

theorem each1_slow_empty (outputs : Nat)
    (call : List Value → Except Unit (List Value)) (xs : Value)
    (ho : outputs ≠ 0) (he : xs.row_count = 0)
    (hwf : ∀ r ∈ call_maintain_sig outputs call [xs.proxy_scalar], r.wf = true) :
    each1_slow outputs call xs =
      .ok (((call_maintain_sig outputs call [xs.proxy_scalar]).map
        (fun r => r.fix_val.pop_row.set_shape (xs.shape_of ++ r.shape_of))).reverse) := by
  unfold each1_slow
  have hcond : (outputs != 0 && xs.row_count == 0) = true := by simp [ho, he]
  rw [hcond]
  simp only [if_true, except_bind_ok]
  rw [← List.map_reverse, mapM_map_singleton]
  rw [mapM_congr_ok _
    (fun r => r.fix_val.pop_row.set_shape (xs.shape_of ++ r.shape_of)) _ ?_]
  · rw [List.map_reverse]
  · intro r hr
    have hw : r.wf = true := hwf r (List.mem_reverse.mp hr)
    have hp : (xs.shape_of ++ r.shape_of).prod = 0 := by
      rw [shape_zero_head_of_row_count_zero xs he]
      simp
    have hv : (r.fix_val.pop_row.set_shape (xs.shape_of ++ r.shape_of)).wf = true := by
      rw [wf_set_shape, pop_row_fix_val_data_len r hw, hp]
      rfl
    rw [from_row_values_single, except_bind_ok]
    simp only [pop_row_fix_val_shape, List.tail_cons]
    rw [validate_shape_ok _ hv]

theorem drop_append_of_length {α : Type} (l1 l2 : List α) (m : Nat) :
    (l1 ++ l2).drop (l1.length + m) = l2.drop m := by
  induction l1 with
  | nil => simp
  | cons a t ih =>
    rw [List.cons_append, List.length_cons,
      show t.length + 1 + m = (t.length + m) + 1 from by omega,
      List.drop_succ_cons, ih]

/-- Splitting a buffer of equal-length chunks back into its chunks. -/
theorem rows_data_flatten {α : Type} (rl : Nat) :
    ∀ (L : List (List α)), (∀ c ∈ L, c.length = rl) →
      Value.rows_data L.length rl L.flatten = L := by
  intro L
  induction L with
  | nil => intro _; rfl
  | cons c L ih =>
    intro h
    have hc : c.length = rl := h c (by simp)
    unfold Value.rows_data
    rw [List.length_cons, List.range_succ_eq_map, List.map_cons]
    congr 1
    · rw [Nat.zero_mul, List.drop_zero, List.flatten_cons, List.take_left' hc]
    · rw [List.map_map]
      rw [List.map_congr_left (g := fun i => (L.flatten.drop (i * rl)).take rl) ?_]
      · exact ih (fun x hx => h x (by simp [hx]))
      · intro i _
        simp only [Function.comp_apply]
        rw [List.flatten_cons,
          show (i + 1) * rl = c.length + i * rl from by rw [hc]; ring,
          drop_append_of_length]

/-- The data of the windows value splits back into the window slices. -/
theorem windows_chunks {α : Type} (n k rl : Nat) (d : List α)
    (hle : n ≤ k) (hlen : d.length = k * rl) :
    Value.rows_data (k - n + 1) (n * rl)
      (((List.range (k - n + 1)).map
        (fun i => (d.drop (i * rl)).take (n * rl))).flatten) =
      (List.range (k - n + 1)).map
        (fun i => (d.drop (i * rl)).take (n * rl)) := by
  have hL : ∀ c ∈ (List.range (k - n + 1)).map
      (fun i => (d.drop (i * rl)).take (n * rl)), c.length = n * rl := by
    intro c hc
    simp only [List.mem_map, List.mem_range] at hc
    obtain ⟨i, hi, rfl⟩ := hc
    rw [List.length_take, List.length_drop, hlen]
    have hmul : (i + n) * rl ≤ k * rl := Nat.mul_le_mul_right rl (by omega)
    rw [Nat.add_mul] at hmul
    omega
  have hlen2 : ((List.range (k - n + 1)).map
      (fun i => (d.drop (i * rl)).take (n * rl))).length = k - n + 1 := by simp
  calc Value.rows_data (k - n + 1) (n * rl)
        (((List.range (k - n + 1)).map
          (fun i => (d.drop (i * rl)).take (n * rl))).flatten)
      = Value.rows_data ((List.range (k - n + 1)).map
          (fun i => (d.drop (i * rl)).take (n * rl))).length (n * rl)
          (((List.range (k - n + 1)).map
            (fun i => (d.drop (i * rl)).take (n * rl))).flatten) := by rw [hlen2]
    _ = _ := rows_data_flatten (n * rl) _ hL

/-! ## Claim theorems -/

/-- Claim C1 (code bug): the claim states the chaining scan recognizes windows
of length 1 then 2 and returns the composition of the window kernels with the
summed depths, failing only when some window fails to recognize.  In the code
the kernel accumulator starts as `None` (zip.rs 154) and is only ever updated
through `Option::map` (zip.rs 166), so it stays `None`: the chaining arm
yields unknown for every body — even `Neg; Abs`, both of whose windows are
individually recognized. -/
theorem c1_chaining_never_composes :
    (∀ (rest : List Instr) (d : Nat), chain_windows rest none d = none) ∧
      f_mon_fast_fn_impl [.prim .neg 0, .prim .abs 0] false = none ∧
      (prim_mon_fast_fn .neg 0).isSome = true ∧
      (prim_mon_fast_fn .abs 0).isSome = true := by
  refine ⟨chain_windows_none, ?_, rfl, rfl⟩
  have h := chain_windows_none [Instr.prim .neg 0, Instr.prim .abs 0] 0
  simp only [f_mon_fast_fn_impl]
  exact h

/-- Claim C5: `repeat_shape` on a rank-0 array `a` with prefix shape `P` yields
shape `P ++ a.shape` with the data replicated `product(P)` times, empty when
`product(P) = 0`; and a `Pop; Push v` body is recognized as the replacement
kernel at depth 0 — the kernel of the `Pop;Push` fast path, whose
`replace_depth` broadcasts `v` over the input's leading axes. -/
theorem c5_repeat_shape_pop_push {α : Type} (a : UArray α) (P : List Nat)
    (_h : a.shape = []) :
    (a.repeat_shape P).shape = P ++ a.shape ∧
      (a.repeat_shape P).data = (List.replicate P.prod a.data).flatten ∧
      (P.prod = 0 → (a.repeat_shape P).data = []) ∧
      (∀ (s : Nat) (v : Value) (deep : Bool),
        f_mon_fast_fn_impl [.prim .pop s, .push v] deep = some (.replace v, 0)) := by
  refine ⟨UArray.repeat_shape_shape a P, UArray.repeat_shape_data a P, ?_, ?_⟩
  · intro h0
    rw [UArray.repeat_shape_data, h0]
    rfl
  · intro s v deep
    cases deep <;> simp [f_mon_fast_fn_impl]

theorem c5_witness :
    ((⟨[], [(5 : ℚ)]⟩ : UArray ℚ).repeat_shape [2, 3]).shape = [2, 3] ++ [] ∧
    ((⟨[], [(5 : ℚ)]⟩ : UArray ℚ).repeat_shape [2, 3]).data = [5, 5, 5, 5, 5, 5] ∧
    ((⟨[], [(5 : ℚ)]⟩ : UArray ℚ).repeat_shape [0, 3]).data = [] ∧
    f_mon_fast_fn_impl [.prim .pop 7, .push (.num [] [9])] false =
      some (.replace (.num [] [9]), 0) := by
  have h := c5_repeat_shape_pop_push (⟨[], [(5 : ℚ)]⟩ : UArray ℚ) [2, 3] rfl
  have h0 := c5_repeat_shape_pop_push (⟨[], [(5 : ℚ)]⟩ : UArray ℚ) [0, 3] rfl
  exact ⟨h.1, by rfl, h0.2.2.1 rfl, h.2.2.2 7 (Value.num [] [9]) false⟩

/-- Claim C7: a dyadic body `PushFunc(g); Rows` recurses on `g`; when `g`
yields kernel `k` and depths `(ad, bd)`, the body yields `k` at depths
`(ad+1, bd+1)` exactly when `sign(ad − 1) = sign(bd − 1)`, and is unknown
otherwise (no mixed nesting); when `g` is unknown so is the body. -/
theorem c7_dyadic_rows_nesting (g : List Instr) (s : Nat) (k : DyKernel)
    (ad bd : Nat) (h : f_dy_fast_fn g = some (k, ad, bd)) :
    (f_dy_fast_fn [.pushFunc g, .prim .rows s] =
      if ((ad : Int) - 1).sign ≠ ((bd : Int) - 1).sign then none
      else some (k, ad + 1, bd + 1)) ∧
    (∀ g2 : List Instr, f_dy_fast_fn g2 = none →
      f_dy_fast_fn [.pushFunc g2, .prim .rows s] = none) := by
  constructor
  · simp [f_dy_fast_fn, h, nest_dy_fast]
  · intro g2 h2
    simp [f_dy_fast_fn, h2]

theorem c7_witness :
    f_dy_fast_fn [.prim .add 0] = some (.prim .add 0, 0, 0) ∧
    f_dy_fast_fn [.pushFunc [.prim .add 0], .prim .rows 1] =
      some (.prim .add 0, 1, 1) := by
  have h : f_dy_fast_fn [Instr.prim .add 0] = some (.prim .add 0, 0, 0) := by
    simp [f_dy_fast_fn, prim_dy_fast_fn]
  refine ⟨h, ?_⟩
  rw [(c7_dyadic_rows_nesting [Instr.prim .add 0] 1 (.prim .add 0) 0 0 h).1]
  simp

/-- Claim C8: `fill_length_to` is idempotent — for every value, target length
and fill context, a second application returns the first result unchanged
(same success/failure outcome and same array). -/
theorem c8_fill_length_to_idempotent (ctx : Value.FillCtx) (len : Nat)
    (x : Value) :
    (Value.fill_length_to ctx len x).bind (Value.fill_length_to ctx len) =
      Value.fill_length_to ctx len x := by
  cases x with
  | num s d =>
    cases hr : UArray.fill_length_to ⟨s, d⟩ len ctx.num_fill with
    | error e => simp [Value.fill_length_to, hr]
    | ok b =>
      have hi := UArray.fill_length_to_idem (⟨s, d⟩ : UArray ℚ) len ctx.num_fill
      rw [hr, except_bind_ok] at hi
      simp [Value.fill_length_to, hr, hi]
  | byte s d =>
    cases hr : UArray.fill_length_to ⟨s, d⟩ len ctx.byte_fill with
    | error e => simp [Value.fill_length_to, hr]
    | ok b =>
      have hi := UArray.fill_length_to_idem (⟨s, d⟩ : UArray Nat) len ctx.byte_fill
      rw [hr, except_bind_ok] at hi
      simp [Value.fill_length_to, hr, hi]
  | box s d =>
    cases hr : UArray.fill_length_to ⟨s, d⟩ len ctx.box_fill with
    | error e => simp [Value.fill_length_to, hr]
    | ok b =>
      have hi := UArray.fill_length_to_idem (⟨s, d⟩ : UArray Value) len ctx.box_fill
      rw [hr, except_bind_ok] at hi
      simp [Value.fill_length_to, hr, hi]

/-- Claim C9: `replace_depth` clamps the depth to the input's rank before
taking the shape prefix, so for every depth — including depths larger than
the rank, as passed by `rows1` (`d + 1`) — the result is well formed and its
leading axes are the first `min(depth, rank)` axes of the input. -/
theorem c9_replace_depth_clamps (v repl : Value) (d : Nat)
    (h : repl.wf = true) :
    (Value.replace_depth v repl d).shape_of =
      v.shape_of.take (min v.rank_of d) ++ repl.shape_of ∧
    (Value.replace_depth v repl d).wf = true := by
  cases repl with
  | num s dt =>
    refine ⟨rfl, ?_⟩
    simp only [Value.wf, Value.data_len, Value.shape_of, beq_iff_eq] at h ⊢
    exact UArray.repeat_shape_wf ⟨s, dt⟩ _ h
  | byte s dt =>
    refine ⟨rfl, ?_⟩
    simp only [Value.wf, Value.data_len, Value.shape_of, beq_iff_eq] at h ⊢
    exact UArray.repeat_shape_wf ⟨s, dt⟩ _ h
  | box s dt =>
    refine ⟨rfl, ?_⟩
    simp only [Value.wf, Value.data_len, Value.shape_of, beq_iff_eq] at h ⊢
    exact UArray.repeat_shape_wf ⟨s, dt⟩ _ h

theorem c9_witness :
    (Value.num [2] [7, 8]).wf = true ∧
    (Value.replace_depth (.num [2, 3] [1, 2, 3, 4, 5, 6]) (.num [2] [7, 8])
      5).shape_of = [2, 3, 2] ∧
    (Value.replace_depth (.num [2, 3] [1, 2, 3, 4, 5, 6]) (.num [2] [7, 8])
      5).wf = true := by
  have h := c9_replace_depth_clamps (.num [2, 3] [1, 2, 3, 4, 5, 6])
    (.num [2] [7, 8]) 5 (by rfl)
  exact ⟨by rfl, by rw [h.1]; rfl, h.2⟩

/-- Claim C2: in the binary `rows` slow path with exactly one single-row
operand (and no applicable fill for it), that operand is `undo_fix`ed and
every row of the other operand is paired with it — the singleton is
replicated conceptually, which is exactly the spec's replication reference
definitions `rows2_spec_replicate` / `rows2_spec_replicate_left` (the
not-cloned-per-row aspect is a copy-on-write representation property outside
this embedding). -/
theorem c2_rows2_singleton_replicates :
    (∀ (ctx : Value.FillCtx) (outputs : Nat)
        (call : List Value → Except Unit (List Value)) (xs ys : Value),
      ys.row_count = 1 → Value.length_is_fillable ctx ys = false →
      xs.row_count ≠ 0 →
      rows2_slow ctx outputs call xs ys =
        rows2_spec_replicate outputs call xs ys) ∧
    (∀ (ctx : Value.FillCtx) (outputs : Nat)
        (call : List Value → Except Unit (List Value)) (xs ys : Value),
      xs.row_count = 1 → Value.length_is_fillable ctx xs = false →
      ys.row_count ≠ 1 → ys.row_count ≠ 0 →
      rows2_slow ctx outputs call xs ys =
        rows2_spec_replicate_left outputs call xs ys) := by
  constructor
  · intro ctx outputs call xs ys h1 h2 h3
    unfold rows2_slow rows2_spec_replicate
    have hc1 : (ys.row_count == 1 && !Value.length_is_fillable ctx ys) = true := by
      simp [h1, h2]
    have hc2 : (outputs != 0 && xs.row_count == 0) = false := by
      simp [h3]
    rw [hc1]
    simp only [if_true]
    rw [hc2]
    simp only [Bool.false_eq_true, if_false]
  · intro ctx outputs call xs ys h1 h2 h3 h4
    unfold rows2_slow rows2_spec_replicate_left
    have hc1 : (ys.row_count == 1 && !Value.length_is_fillable ctx ys) = false := by
      simp [h3]
    have hc2 : (xs.row_count == 1 && !Value.length_is_fillable ctx xs) = true := by
      simp [h1, h2]
    have hc3 : (outputs != 0 && ys.row_count == 0) = false := by
      simp [h4]
    rw [hc1]
    simp only [Bool.false_eq_true, if_false]
    rw [hc2]
    simp only [if_true]
    rw [hc3]
    simp only [Bool.false_eq_true, if_false]

theorem c2_witness :
    (Value.num [1] [100]).row_count = 1 ∧
    Value.length_is_fillable Value.noFill (.num [1] [100]) = false ∧
    (Value.num [3] [1, 2, 3]).row_count ≠ 0 ∧
    rows2_slow Value.noFill 1 add_call (.num [3] [1, 2, 3]) (.num [1] [100]) =
      rows2_spec_replicate 1 add_call (.num [3] [1, 2, 3]) (.num [1] [100]) ∧
    rows2_slow Value.noFill 1 add_call (.num [3] [1, 2, 3]) (.num [1] [100]) =
      .ok [.num [3] [101, 102, 103]] ∧
    rows2_slow Value.noFill 1 add_call (.num [1] [100]) (.num [3] [1, 2, 3]) =
      rows2_spec_replicate_left 1 add_call (.num [1] [100]) (.num [3] [1, 2, 3]) := by
  have h := c2_rows2_singleton_replicates.1 Value.noFill 1 add_call
    (.num [3] [1, 2, 3]) (.num [1] [100]) rfl rfl (by decide)
  have h2 := c2_rows2_singleton_replicates.2 Value.noFill 1 add_call
    (.num [1] [100]) (.num [3] [1, 2, 3]) rfl rfl (by decide) (by decide)
  exact ⟨rfl, rfl, by decide, h, by rw [h]; with_unfolding_all rfl, h2⟩

/-- Claim C3: in the slow paths of `rows1`, `rows2` and `each1`, when an
operand has `row_count = 0` and the function has outputs, each pushed result
has `row_count = 0` and its trailing shape comes from the proxy call: in
`rows1`/`rows2` the result's shape is `0 ::` the proxy result's shape (the
synthetic proxy row is dropped from the data by `pop_row` but keeps its
shape contribution), and in `each1` the outer shape `xs.shape` is grafted in
front of the proxy result's shape. -/
theorem c3_empty_shape_preservation :
    (∀ (outputs : Nat) (call : List Value → Except Unit (List Value))
        (xs : Value) (rs : List Value),
      outputs ≠ 0 → xs.row_count = 0 →
      call [xs.proxy_row] = .ok rs → rs.length = outputs →
      rows1_slow outputs call xs =
          .ok ((rs.map (fun r => r.fix_val.pop_row)).reverse) ∧
        ∀ r ∈ rs, r.fix_val.pop_row.row_count = 0 ∧
          r.fix_val.pop_row.shape_of = 0 :: r.shape_of ∧
          (r.wf = true → r.fix_val.pop_row.data_len = 0)) ∧
    (∀ (ctx : Value.FillCtx) (outputs : Nat)
        (call : List Value → Except Unit (List Value))
        (xs ys : Value) (rs : List Value),
      outputs ≠ 0 → xs.row_count = 0 → ys.row_count = 0 →
      call [xs.proxy_row, ys.proxy_row] = .ok rs → rs.length = outputs →
      rows2_slow ctx outputs call xs ys =
        .ok ((rs.map (fun r => r.fix_val.pop_row)).reverse)) ∧
    (∀ (outputs : Nat) (call : List Value → Except Unit (List Value))
        (xs : Value) (rs : List Value),
      outputs ≠ 0 → xs.row_count = 0 →
      call [xs.proxy_scalar] = .ok rs → rs.length = outputs →
      (∀ r ∈ rs, r.wf = true) →
      each1_slow outputs call xs =
          .ok ((rs.map (fun r =>
            r.fix_val.pop_row.set_shape (xs.shape_of ++ r.shape_of))).reverse) ∧
        ∀ r ∈ rs,
          (r.fix_val.pop_row.set_shape (xs.shape_of ++ r.shape_of)).row_count
            = 0 ∧
          (r.fix_val.pop_row.set_shape (xs.shape_of ++ r.shape_of)).shape_of
            = xs.shape_of ++ r.shape_of) := by
  refine ⟨?_, ?_, ?_⟩
  · intro outputs call xs rs ho he hc hl
    constructor
    · rw [rows1_slow_empty outputs call xs ho he,
        call_maintain_sig_of_ok outputs call _ rs hc hl]
    · intro r _
      refine ⟨pop_row_fix_val_row_count r, pop_row_fix_val_shape r,
        fun hw => pop_row_fix_val_data_len r hw⟩
  · intro ctx outputs call xs ys rs ho hx hy hc hl
    rw [rows2_slow_empty ctx outputs call xs ys ho hx hy,
      call_maintain_sig_of_ok outputs call _ rs hc hl]
  · intro outputs call xs rs ho he hc hl hwf
    have hms : call_maintain_sig outputs call [xs.proxy_scalar] = rs :=
      call_maintain_sig_of_ok outputs call _ rs hc hl
    constructor
    · rw [each1_slow_empty outputs call xs ho he (by rw [hms]; exact hwf), hms]
    · intro r hrm
      constructor
      · have hsh : (r.fix_val.pop_row.set_shape
            (xs.shape_of ++ r.shape_of)).shape_of = xs.shape_of ++ r.shape_of :=
          shape_of_set_shape _ _
        unfold Value.row_count
        rw [hsh, shape_zero_head_of_row_count_zero xs he]
        rfl
      · exact shape_of_set_shape _ _

theorem c3_witness :
    (Value.num [0, 2] [] : Value).row_count = 0 ∧
    rows1_slow 1 (fun _ => .ok [.num [2] [7, 8]]) (.num [0, 2] []) =
      .ok [.num [0, 2] []] ∧
    rows2_slow Value.noFill 1 (fun _ => .ok [.num [2] [7, 8]])
      (.num [0, 2] []) (.num [0] []) = .ok [.num [0, 2] []] ∧
    each1_slow 1 (fun _ => .ok [.num [2] [7, 8]]) (.num [0, 2] []) =
      .ok [.num [0, 2, 2] []] := by
  have h1 := (c3_empty_shape_preservation.1 1
    (fun _ => .ok [.num [2] [7, 8]]) (.num [0, 2] []) [.num [2] [7, 8]]
    (by decide) rfl rfl rfl).1
  have h2 := c3_empty_shape_preservation.2.1 Value.noFill 1
    (fun _ => .ok [.num [2] [7, 8]]) (.num [0, 2] []) (.num [0] [])
    [.num [2] [7, 8]] (by decide) rfl rfl rfl rfl
  have h3 := (c3_empty_shape_preservation.2.2 1
    (fun _ => .ok [.num [2] [7, 8]]) (.num [0, 2] []) [.num [2] [7, 8]]
    (by decide) rfl rfl rfl (by intro r hr; simp at hr; subst hr; rfl)).1
  exact ⟨rfl, by rw [h1]; rfl, by rw [h2]; rfl, by rw [h3]; rfl⟩

/-- Claim C4: the proxy-cell shape-discovery call swallows errors: in `each2`'s
empty path a failing call is replaced by one default value per declared
output, and in `each1`'s empty path (`call_maintain_sig`) a failing call
still produces an `Ok` result assembled from defaults — an empty result of a
sensible shape (`xs.shape ++ [0]`). -/
theorem c4_proxy_error_swallowed :
    (∀ (outputs : Nat) (call : List Value → Except Unit (List Value))
        (x y : Value) (e : Unit), call [x, y] = .error e →
      each2_empty_cell outputs call x y =
        .ok (List.replicate outputs Value.default_value)) ∧
    (∀ (outputs : Nat) (call : List Value → Except Unit (List Value))
        (xs : Value) (e : Unit),
      outputs ≠ 0 → xs.row_count = 0 → call [xs.proxy_scalar] = .error e →
      each1_slow outputs call xs =
        .ok (List.replicate outputs (Value.byte (xs.shape_of ++ [0]) []))) := by
  constructor
  · intro outputs call x y e h
    unfold each2_empty_cell
    rw [h]
  · intro outputs call xs e ho he hc
    have hms : call_maintain_sig outputs call [xs.proxy_scalar] =
        List.replicate outputs Value.default_value :=
      call_maintain_sig_of_error outputs call _ e hc
    have hwf : ∀ r ∈ call_maintain_sig outputs call [xs.proxy_scalar],
        r.wf = true := by
      rw [hms]
      intro r hr
      rw [List.eq_of_mem_replicate hr]
      rfl
    rw [each1_slow_empty outputs call xs ho he hwf, hms]
    rw [List.map_replicate, List.reverse_replicate]
    rfl

theorem c4_witness :
    ((fun _ => (.error () : Except Unit (List Value)))
      [Value.num [] [0], Value.num [] [1]] = .error ()) ∧
    each2_empty_cell 2 (fun _ => .error ()) (.num [] [0]) (.num [] [1]) =
      .ok [Value.default_value, Value.default_value] ∧
    each1_slow 1 (fun _ => .error ()) (.num [0, 3] []) =
      .ok [.byte [0, 3, 0] []] := by
  refine ⟨rfl, ?_, ?_⟩
  · rw [c4_proxy_error_swallowed.1 2 (fun _ => .error ())
      (.num [] [0]) (.num [] [1]) () rfl]
    rfl
  · rw [c4_proxy_error_swallowed.2 1 (fun _ => .error ())
      (.num [0, 3] []) () (by decide) rfl rfl]
    rfl

/-- Claim C6: `rows_windows` with a scalar integer size `0 < n ≤ row_count`
defers to `rows` on the value of the `row_count − n + 1` overlapping
size-`n` windows (whose rows are exactly the window slices); when the
function is exactly the primitive `Box` it bypasses row iteration and pushes
the box array of the `row_count − (n − 1)` window slices directly — the same
slices that are the rows of the windows value. -/
theorem c6_rows_windows_box_bypass (f : UFn) (n : Nat) (xs : Value)
    (hargs : f.args = 1) (hn : 0 < n) (hle : n ≤ xs.row_count)
    (hrank : 1 ≤ xs.rank_of) (hwf : xs.wf = true) :
    (f.as_prim = some .box →
      rows_windows f (.byte [] [n]) xs =
        .pushed (.box [xs.row_count - (n - 1)]
          ((List.range (xs.row_count - (n - 1))).map
            (fun ws => xs.slice_rows ws (ws + n))))) ∧
    (f.as_prim ≠ some .box →
      rows_windows f (.byte [] [n]) xs = .via_rows (Value.windows_val n xs)) ∧
    (Value.windows_val n xs).row_count = xs.row_count - n + 1 ∧
    (Value.windows_val n xs).into_rows =
      (List.range (xs.row_count - n + 1)).map
        (fun i => xs.slice_rows i (i + n)) ∧
    xs.row_count - (n - 1) = xs.row_count - n + 1 := by
  have hcount : xs.row_count - (n - 1) = xs.row_count - n + 1 := by omega
  have e4 : (n == 0) = false := by
    simp only [beq_eq_false_iff_ne, ne_eq]
    omega
  have e5 : ¬ (xs.row_count < n) := Nat.not_lt.mpr hle
  have hbase : rows_windows f (.byte [] [n]) xs =
      match f.as_prim with
      | some .box => .pushed (.box [xs.row_count - (n - 1)]
          ((List.range (xs.row_count - (n - 1))).map
            (fun ws => xs.slice_rows ws (ws + n))))
      | _ => .via_rows (Value.windows_val n xs) := by
    simp only [rows_windows, hargs, Value.rank_of, Value.shape_of, Value.as_int,
      List.length_nil, bne_self_eq_false, Bool.false_eq_true, if_false,
      Int.natAbs_ofNat, e4, e5]
  have hcd : (Value.windows_val n xs).row_count = xs.row_count - n + 1 ∧
      (Value.windows_val n xs).into_rows =
        (List.range (xs.row_count - n + 1)).map
          (fun i => xs.slice_rows i (i + n)) := by
    cases xs with
    | num s d =>
      cases s with
      | nil => simp [Value.rank_of, Value.shape_of] at hrank
      | cons k rest =>
        have hlek : n ≤ k := hle
        have hlen : d.length = k * rest.prod := by
          simpa [Value.wf, Value.data_len, Value.shape_of, List.prod_cons]
            using hwf
        refine ⟨rfl, ?_⟩
        show (Value.num ((k - n + 1) :: n :: rest) _).into_rows = _
        simp only [Value.into_rows]
        rw [List.prod_cons, windows_chunks n k rest.prod d hlek hlen,
          List.map_map]
        apply List.map_congr_left
        intro i _
        simp only [Function.comp_apply, Value.slice_rows]
        rw [Nat.add_sub_cancel_left]
    | byte s d =>
      cases s with
      | nil => simp [Value.rank_of, Value.shape_of] at hrank
      | cons k rest =>
        have hlek : n ≤ k := hle
        have hlen : d.length = k * rest.prod := by
          simpa [Value.wf, Value.data_len, Value.shape_of, List.prod_cons]
            using hwf
        refine ⟨rfl, ?_⟩
        show (Value.byte ((k - n + 1) :: n :: rest) _).into_rows = _
        simp only [Value.into_rows]
        rw [List.prod_cons, windows_chunks n k rest.prod d hlek hlen,
          List.map_map]
        apply List.map_congr_left
        intro i _
        simp only [Function.comp_apply, Value.slice_rows]
        rw [Nat.add_sub_cancel_left]
    | box s d =>
      cases s with
      | nil => simp [Value.rank_of, Value.shape_of] at hrank
      | cons k rest =>
        have hlek : n ≤ k := hle
        have hlen : d.length = k * rest.prod := by
          simpa [Value.wf, Value.data_len, Value.shape_of, List.prod_cons]
            using hwf
        refine ⟨rfl, ?_⟩
        show (Value.box ((k - n + 1) :: n :: rest) _).into_rows = _
        simp only [Value.into_rows]
        rw [List.prod_cons, windows_chunks n k rest.prod d hlek hlen,
          List.map_map]
        apply List.map_congr_left
        intro i _
        simp only [Function.comp_apply, Value.slice_rows]
        rw [Nat.add_sub_cancel_left]
  refine ⟨?_, ?_, hcd.1, hcd.2, hcount⟩
  · intro hp
    rw [hbase, hp]
  · intro hp
    rw [hbase]
    rcases hf : f.as_prim with _ | p
    · rfl
    · cases p <;> first | rfl | exact (hp hf).elim

theorem c6_witness :
    rows_windows ⟨1, 1, some .box, fun _ => .error ()⟩ (.byte [] [2])
        (.num [4] [1, 2, 3, 4]) =
      .pushed (.box [3] [.num [2] [1, 2], .num [2] [2, 3], .num [2] [3, 4]]) ∧
    (Value.windows_val 2 (.num [4] [1, 2, 3, 4])).into_rows =
      [.num [2] [1, 2], .num [2] [2, 3], .num [2] [3, 4]] := by
  have h := c6_rows_windows_box_bypass ⟨1, 1, some .box, fun _ => .error ()⟩ 2
    (.num [4] [1, 2, 3, 4]) rfl (by decide) (by decide) (by decide) rfl
  constructor
  · rw [h.1 rfl]
    rfl
  · rw [h.2.2.2.1]
    rfl

/-- Claim C10: `rows_windows` with a scalar integer window size whose absolute
value exceeds the input's row count does not error and does not consult the
function: it pushes the input with its first dimension set to zero — an
empty result with the same trailing shape. -/
theorem c10_oversized_window (f : UFn) (nArr xs : Value) (n : Int)
    (hargs : f.args = 1) (hrank : nArr.rank_of = 0)
    (hint : nArr.as_int = some n) (hbig : xs.row_count < n.natAbs) :
    rows_windows f nArr xs = .pushed xs.first_dim_zero ∧
    (∀ g : UFn, g.args = 1 → rows_windows g nArr xs = .pushed xs.first_dim_zero) ∧
    (1 ≤ xs.rank_of → xs.first_dim_zero.row_count = 0 ∧
      xs.first_dim_zero.shape_of.tail = xs.shape_of.tail ∧
      xs.first_dim_zero.data_len = 0) := by
  have hcore : ∀ g : UFn, g.args = 1 →
      rows_windows g nArr xs = .pushed xs.first_dim_zero := by
    intro g hg
    have e2 : (nArr.rank_of != 0) = false := by simp [hrank]
    have e4 : (n.natAbs == 0) = false := by
      simp only [beq_eq_false_iff_ne, ne_eq]
      omega
    simp only [rows_windows, hg, bne_self_eq_false, Bool.false_eq_true,
      if_false, e2, hint, e4, hbig, if_true]
  refine ⟨hcore f hargs, hcore, ?_⟩
  intro hr
  cases xs with
  | num s d =>
    cases s with
    | nil => simp [Value.rank_of, Value.shape_of] at hr
    | cons k rest => exact ⟨rfl, rfl, rfl⟩
  | byte s d =>
    cases s with
    | nil => simp [Value.rank_of, Value.shape_of] at hr
    | cons k rest => exact ⟨rfl, rfl, rfl⟩
  | box s d =>
    cases s with
    | nil => simp [Value.rank_of, Value.shape_of] at hr
    | cons k rest => exact ⟨rfl, rfl, rfl⟩

theorem c10_witness :
    rows_windows ⟨1, 1, none, fun _ => .error ()⟩ (.byte [] [7])
        (.num [3] [1, 2, 3]) = .pushed (.num [0] []) ∧
    (Value.num [3] [1, 2, 3]).first_dim_zero.row_count = 0 := by
  have h := c10_oversized_window ⟨1, 1, none, fun _ => .error ()⟩
    (.byte [] [7]) (.num [3] [1, 2, 3]) 7 rfl rfl rfl (by decide)
  exact ⟨by rw [h.1]; rfl, (h.2.2 (by decide)).1⟩

end Zip
